import Mathlib

/-!
Shallow embedding of `make_dataset.py` from the `question_generation`
repository: the SQuAD / NewsQA preprocessing pipeline.  Covered here are
the answer-to-sentence resolution loop, per-question extraction for both
corpora, the NewsQA filtering gates, the CNN-prefix stripping, the
sentence-boundary (`sent_starts`) computation, and the merge/shuffle stage
(`concatenate_data` plus the `__main__` driver).

Tokenisation (`word_tokenize`, `sent_tokenize`, `clean_text`) lives in the
`utils` module, which the spec treats as an opaque external collaborator;
those functions are passed in as parameters.  `convert_idx` (the Span
Indexer) also lives in `utils` and is modelled from the spec where needed.
-/

namespace MakeDataset

/-- The sentence-resolution loop of `make_dataset.py` (lines 107-111, and
identically lines 175-179): iterate `enumerate(sent_starts)` zipped with
`context_sentences`; while `answer_start >= start`, overwrite
`sentence_tokens` with the current sentence; `break` at the first start
exceeding `answer_start`.  `acc` is the value of `sentence_tokens` entering
the loop (`[]` in the SQuAD extractor). -/
def resolveLoop (answer_start : Int) : List (Int × α) → α → α
  | [], acc => acc
  | (start, sentence) :: rest, acc =>
    if answer_start ≥ start then resolveLoop answer_start rest sentence else acc

/-- The same loop for the NewsQA extractor, where `sentence_tokens` is never
initialised before the loop (line 175): `none` models "name not yet bound";
referencing it afterwards while still unbound is Python's `NameError`. -/
def resolveLoopOpt (answer_start : Int) : List (Int × α) → Option α → Option α
  | [], acc => acc
  | (start, sentence) :: rest, acc =>
    if answer_start ≥ start then resolveLoopOpt answer_start rest (some sentence) else acc

/-- The loop keeps the last value assigned over the longest prefix of pairs
whose start is `≤ answer_start`. -/
theorem resolveLoop_eq_takeWhile (a : Int) :
    ∀ (pairs : List (Int × α)) (acc : α),
      resolveLoop a pairs acc =
        ((pairs.takeWhile fun p => decide (a ≥ p.1)).map Prod.snd).getLastD acc := by
  intro pairs
  induction pairs with
  | nil => intro acc; rfl
  | cons p rest ih =>
    intro acc
    obtain ⟨start, sentence⟩ := p
    show (if a ≥ start then resolveLoop a rest sentence else acc) = _
    by_cases h : a ≥ start
    · rw [if_pos h, List.takeWhile_cons_of_pos (by simpa using h), List.map_cons,
        List.getLastD_cons, ih]
    · rw [if_neg h, List.takeWhile_cons_of_neg (by simpa using h)]
      rfl

/-- Version of the previous characterisation for the uninitialised-variable
variant of the loop. -/
theorem resolveLoopOpt_eq_takeWhile (a : Int) :
    ∀ (pairs : List (Int × α)) (acc : Option α),
      resolveLoopOpt a pairs acc =
        ((pairs.takeWhile fun p => decide (a ≥ p.1)).map fun p => some p.2).getLastD acc := by
  intro pairs
  induction pairs with
  | nil => intro acc; rfl
  | cons p rest ih =>
    intro acc
    obtain ⟨start, sentence⟩ := p
    show (if a ≥ start then resolveLoopOpt a rest (some sentence) else acc) = _
    by_cases h : a ≥ start
    · rw [if_pos h, List.takeWhile_cons_of_pos (by simpa using h), List.map_cons,
        List.getLastD_cons, ih]
    · rw [if_neg h, List.takeWhile_cons_of_neg (by simpa using h)]
      rfl

/-- `takeWhile` over a zip whose predicate only looks at the first component
factors through `takeWhile` on the first list. -/
theorem takeWhile_zip_fst (a : Int) :
    ∀ (starts : List Int) (sents : List α),
      ((starts.zip sents).takeWhile fun p => decide (a ≥ p.1)) =
        (starts.takeWhile fun s => decide (a ≥ s)).zip sents := by
  intro starts
  induction starts with
  | nil => intro sents; rfl
  | cons s rest ih =>
    intro sents
    cases sents with
    | nil => simp [List.zip_nil_right]
    | cons v vs =>
      by_cases h : a ≥ s
      · simp [List.takeWhile_cons, decide_eq_true h, List.zip_cons_cons, ih]
      · simp [List.takeWhile_cons, decide_eq_false h]

/-- Mapping `Prod.snd` over a zip takes a prefix of the second list. -/
theorem map_snd_zip_eq_take :
    ∀ (starts : List Int) (sents : List α), starts.length ≤ sents.length →
      ((starts.zip sents).map Prod.snd) = sents.take starts.length := by
  intro starts
  induction starts with
  | nil => intro sents _; rfl
  | cons s rest ih =>
    intro sents h
    cases sents with
    | nil => simp at h
    | cons v vs =>
      simp only [List.zip_cons_cons, List.map_cons, List.length_cons, List.take_succ_cons]
      rw [ih vs (by simpa using h)]

/-- The last element of a non-trivial `take` is an indexed element. -/
theorem getLastD_take (s : List α) (k : Nat) (acc : α) (hk : 0 < k)
    (hlen : k ≤ s.length) : (s.take k).getLastD acc = s.getD (k - 1) acc := by
  have hlt : (s.take k).length = k := by
    rw [List.length_take]; exact Nat.min_eq_left hlen
  have hne : s.take k ≠ [] := by
    intro h
    rw [h] at hlt
    simp at hlt
    omega
  rw [List.getLastD_eq_getLast? , List.getLast?_eq_get? ]
  rw [hlt]
  rw [List.get?_take (by omega)]
  rw [List.getD_eq_get? ]

/-- In a `≤`-sorted list, an element is `≤ a` exactly when its index falls
inside the `takeWhile (· ≤ a)` prefix. -/
theorem sorted_le_iff_lt_takeWhile (a : Int) :
    ∀ (starts : List Int), starts.Sorted (· ≤ ·) →
      ∀ j (hj : j < starts.length),
        (starts.get ⟨j, hj⟩ ≤ a ↔ j < (starts.takeWhile fun s => decide (a ≥ s)).length) := by
  intro starts
  induction starts with
  | nil => intro _ j hj; simp at hj
  | cons s rest ih =>
    intro hsort j hj
    rw [List.sorted_cons] at hsort
    by_cases h : a ≥ s
    · rw [List.takeWhile_cons_of_pos (by simpa using h)]
      cases j with
      | zero => simpa using h
      | succ j' =>
        simp only [List.get, List.length_cons]
        rw [ih hsort.2 j' (by simpa using hj)]
        omega
    · rw [List.takeWhile_cons_of_neg (by simpa using h)]
      push_neg at h
      simp only [List.length_nil, Nat.not_lt_zero, iff_false, not_le]
      cases j with
      | zero => simpa using h
      | succ j' =>
        simp only [List.get]
        have hmem : rest.get ⟨j', by simpa using hj⟩ ∈ rest := List.get_mem _ _ _
        exact lt_of_lt_of_le h (hsort.1 _ hmem)

/-- The `takeWhile` prefix is never longer than the list. -/
theorem takeWhile_length_le (p : α → Bool) :
    ∀ (l : List α), (l.takeWhile p).length ≤ l.length := by
  intro l
  induction l with
  | nil => simp
  | cons x xs ih =>
    rw [List.takeWhile_cons]
    cases hp : p x
    · simp
    · simpa using ih

/-- Helper: under sortedness, the `takeWhile (· ≤ a)` prefix length is `i + 1`
when `i` is the greatest index whose start is `≤ a`. -/
theorem takeWhile_length_of_greatest (a : Int) (starts : List Int)
    (hsorted : starts.Sorted (· ≤ ·)) (i : Nat) (hi : i < starts.length)
    (hle : starts.get ⟨i, hi⟩ ≤ a)
    (hgr : ∀ j (hj : j < starts.length), starts.get ⟨j, hj⟩ ≤ a → j ≤ i) :
    (starts.takeWhile fun s => decide (a ≥ s)).length = i + 1 := by
  have hik : i < (starts.takeWhile fun s => decide (a ≥ s)).length :=
    (sorted_le_iff_lt_takeWhile a starts hsorted i hi).mp hle
  by_contra hne
  have hk : i + 1 < (starts.takeWhile fun s => decide (a ≥ s)).length := by omega
  have hlen : i + 1 < starts.length :=
    lt_of_lt_of_le hk (takeWhile_length_le _ starts)
  have := hgr (i + 1) hlen
    ((sorted_le_iff_lt_takeWhile a starts hsorted (i + 1) hlen).mpr hk)
  omega

/-- C2: the Answer-to-Sentence Resolver scans `sent_starts` in order and keeps
the sentence at the greatest index whose start offset is `≤ answer_start`,
stopping at the first start exceeding it; if no start is `≤ answer_start` the
result is the NotFound sentinel (the empty token list).  The concrete conjunct
is the spec scenario: `answer_char_start = 15`, `sentence_starts = [0, 12]`
selects sentence index 1 ("Dogs run ."). -/
theorem resolver_selects_greatest_start (a : Int) (starts : List Int)
    (hne : starts ≠ []) (hsorted : starts.Sorted (· ≤ ·)) :
    (∀ (sents : List (List String)), starts.length = sents.length →
        ((∀ j (hj : j < starts.length), a < starts.get ⟨j, hj⟩) →
            resolveLoop a (starts.zip sents) ([] : List String) = []) ∧
        (∀ i (hi : i < starts.length), starts.get ⟨i, hi⟩ ≤ a →
            (∀ j (hj : j < starts.length), starts.get ⟨j, hj⟩ ≤ a → j ≤ i) →
            resolveLoop a (starts.zip sents) [] = sents.getD i [])) ∧
    resolveLoop 15 [((0 : Int), ["Cats", "sleep", "."]), (12, ["Dogs", "run", "."])] [] =
      ["Dogs", "run", "."] := by
  constructor
  · intro sents hlen
    constructor
    · intro hall
      rw [resolveLoop_eq_takeWhile, takeWhile_zip_fst]
      have hk : (starts.takeWhile fun s => decide (a ≥ s)).length = 0 := by
        by_contra hk0
        have h0 : 0 < (starts.takeWhile fun s => decide (a ≥ s)).length := by omega
        have h0len : 0 < starts.length := lt_of_lt_of_le h0 (takeWhile_length_le _ starts)
        exact absurd ((sorted_le_iff_lt_takeWhile a starts hsorted 0 h0len).mpr h0)
          (not_le.mpr (hall 0 h0len))
      rw [List.length_eq_zero.mp hk]
      rfl
    · intro i hi hle hgr
      rw [resolveLoop_eq_takeWhile, takeWhile_zip_fst]
      have hk := takeWhile_length_of_greatest a starts hsorted i hi hle hgr
      rw [map_snd_zip_eq_take _ _ (by rw [hk]; omega)]
      rw [hk, getLastD_take sents (i + 1) [] (by omega) (by omega)]
      simp
  · decide

/-- Witness for the resolver theorem: the spec scenario, with both starts
`≤ 15` and index 1 the greatest such index. -/
theorem resolver_selects_greatest_start_witness :
    resolveLoop 15 ([(0 : Int), 12].zip [["Cats", "sleep", "."], ["Dogs", "run", "."]]) [] =
      [["Cats", "sleep", "."], ["Dogs", "run", "."]].getD 1 [] :=
  (((resolver_selects_greatest_start 15 [0, 12] (by decide) (by decide)).1
      [["Cats", "sleep", "."], ["Dogs", "run", "."]] (by decide)).2
    1 (by decide) (by decide) (fun j hj h => by simp at hj; omega))

/-! ### SQuAD extractor (`SquadPreprocessor.split_data`, lines 91-119)

`clean_text` and `word_tokenize` are opaque external collaborators from
`utils`; they are passed in as parameters `clean` and `tokenize`. -/

/-- One SQuAD answer annotation: `{"text": ..., "answer_start": ...}`. -/
structure SquadAnswer where
  text : String
  answer_start : Int
deriving DecidableEq

/-- One SQuAD question-answer annotation (`qa`). -/
structure SquadQA where
  question : String
  answers : List SquadAnswer
deriving DecidableEq

/-- The `for answer_id in range(answer_ids)` body (lines 101-114): per answer,
clean and tokenize the answer text, re-run the resolution loop from a fresh
`sentence_tokens = []`, and raise if the resolved sentence is empty.  After
the loop the variables hold the values from the last iteration, which is what
the single write at lines 117-119 uses. -/
def squadAnswerLoop (tokenize : String → List String) (clean : String → String)
    (sent_starts : List Int) (context_sentences : List (List String)) :
    List SquadAnswer → Except Unit (List String × List String)
  | [] => Except.error ()
  | ans :: rest =>
    let answer_tokens := tokenize (clean ans.text)
    let sentence_tokens :=
      resolveLoop ans.answer_start (sent_starts.zip context_sentences) []
    if sentence_tokens = [] then Except.error ()
    else
      match rest with
      | [] => Except.ok (sentence_tokens, answer_tokens)
      | _ :: _ => squadAnswerLoop tokenize clean sent_starts context_sentences rest

/-- Processing of one `qa` record (lines 91-119).  `sub_dir_train` is the
`sub_dir == "train"` test; `answer_ids = 1 if qa['answers'] else 0` on the
train split and `len(qa['answers'])` otherwise; the loop runs over the first
`answer_ids` answers and exactly one (sentence, question, answer) triple is
written after it (the write at lines 117-119 sits outside the answer loop). -/
def squadProcessQA (tokenize : String → List String) (clean : String → String)
    (sub_dir_train : Bool) (sent_starts : List Int)
    (context_sentences : List (List String)) (qa : SquadQA) :
    Except Unit (List (List String × List String × List String)) :=
  let question_tokens := tokenize (clean qa.question)
  let answer_ids := if sub_dir_train then (if qa.answers.isEmpty then 0 else 1)
    else qa.answers.length
  if answer_ids = 0 then Except.ok []
  else
    match squadAnswerLoop tokenize clean sent_starts context_sentences
        (qa.answers.take answer_ids) with
    | Except.error e => Except.error e
    | Except.ok (sentence_tokens, answer_tokens) =>
      Except.ok [(sentence_tokens, question_tokens, answer_tokens)]

/-- If the answer loop succeeds, its result comes from the last answer, and
every answer in the list resolved to a non-empty sentence. -/
theorem squadAnswerLoop_ok (tokenize : String → List String)
    (clean : String → String) (sent_starts : List Int)
    (context_sentences : List (List String)) :
    ∀ (answers : List SquadAnswer) (st at_ : List String),
      squadAnswerLoop tokenize clean sent_starts context_sentences answers =
        Except.ok (st, at_) →
      (∃ last, answers.getLast? = some last ∧
          st = resolveLoop last.answer_start (sent_starts.zip context_sentences) [] ∧
          at_ = tokenize (clean last.text)) ∧
      ∀ ans ∈ answers,
        resolveLoop ans.answer_start (sent_starts.zip context_sentences) [] ≠ [] := by
  intro answers
  induction answers with
  | nil => intro st at_ h; exact absurd h (by simp [squadAnswerLoop])
  | cons ans rest ih =>
    intro st at_ h
    simp only [squadAnswerLoop] at h
    by_cases hres :
        resolveLoop ans.answer_start (sent_starts.zip context_sentences) [] = []
    · rw [if_pos hres] at h; exact absurd h (by simp)
    · rw [if_neg hres] at h
      cases rest with
      | nil =>
        simp only [Except.ok.injEq, Prod.mk.injEq] at h
        refine ⟨⟨ans, by simp, h.1.symm, h.2.symm⟩, ?_⟩
        intro a ha
        simp at ha
        rw [ha]
        exact hres
      | cons b bs =>
        obtain ⟨⟨last, hlast, hst, hat⟩, hall⟩ := ih st at_ h
        refine ⟨⟨last, by rw [List.getLast?_cons_cons]; exact hlast, hst, hat⟩, ?_⟩
        intro a ha
        rcases List.mem_cons.mp ha with rfl | hmem
        · exact hres
        · exact hall a hmem

/-- C3: on a dev/eval split, a question with `n ≥ 1` answers has all `n`
answers iterated (each must resolve for the run not to abort), but exactly one
triple is emitted, and its sentence and answer are the ones derived from the
last answer in the list. -/
theorem squad_dev_emits_last_answer (tokenize : String → List String)
    (clean : String → String) (sent_starts : List Int)
    (context_sentences : List (List String)) (qa : SquadQA)
    (hne : qa.answers ≠ [])
    (out : List (List String × List String × List String))
    (hok : squadProcessQA tokenize clean false sent_starts context_sentences qa =
      Except.ok out) :
    out.length = 1 ∧
    (∀ last, qa.answers.getLast? = some last →
        out = [(resolveLoop last.answer_start (sent_starts.zip context_sentences) [],
          tokenize (clean qa.question), tokenize (clean last.text))]) ∧
    ∀ ans ∈ qa.answers,
      resolveLoop ans.answer_start (sent_starts.zip context_sentences) [] ≠ [] := by
  rw [squadProcessQA] at hok
  simp only [if_false, Bool.false_eq_true] at hok
  have hlen : qa.answers.length ≠ 0 := fun h => hne (List.length_eq_zero.mp h)
  rw [if_neg hlen, List.take_length] at hok
  cases hloop : squadAnswerLoop tokenize clean sent_starts context_sentences qa.answers with
  | error e => rw [hloop] at hok; exact absurd hok (by simp)
  | ok p =>
    obtain ⟨st, at_⟩ := p
    rw [hloop] at hok
    simp only [Except.ok.injEq] at hok
    obtain ⟨⟨last, hlast, hst, hat⟩, hall⟩ :=
      squadAnswerLoop_ok tokenize clean sent_starts context_sentences
        qa.answers st at_ hloop
    subst hok
    refine ⟨by simp, ?_, hall⟩
    intro l hl
    rw [hlast] at hl
    cases hl
    rw [hst, hat]

/-- Witness for C3: a dev-split question with two answers; the emitted triple
carries the second (last) answer's sentence and text. -/
theorem squad_dev_emits_last_answer_witness :
    ([([("B" : String)], [("q?" : String)], [("y" : String)])].length = 1) ∧
    (∀ last, ([⟨"x", 0⟩, ⟨"y", 6⟩] : List SquadAnswer).getLast? = some last →
        [([("B" : String)], [("q?" : String)], [("y" : String)])] =
          [(resolveLoop last.answer_start ([(0 : Int), 5].zip [["A"], ["B"]]) [],
            (fun s : String => [s]) ((fun s : String => s) "q?"),
            (fun s : String => [s]) ((fun s : String => s) last.text))]) ∧
    ∀ ans ∈ ([⟨"x", 0⟩, ⟨"y", 6⟩] : List SquadAnswer),
      resolveLoop ans.answer_start ([(0 : Int), 5].zip [["A"], ["B"]]) [] ≠ [] :=
  squad_dev_emits_last_answer (fun s => [s]) (fun s => s) [0, 5] [["A"], ["B"]]
    ⟨"q?", [⟨"x", 0⟩, ⟨"y", 6⟩]⟩ (by simp) _ rfl

/-- C5: on the training split, a question with at least one answer produces
exactly one triple, derived from the first ("top") answer; a question with no
answers produces nothing. -/
theorem squad_train_selects_first_answer (tokenize : String → List String)
    (clean : String → String) (sent_starts : List Int)
    (context_sentences : List (List String)) (qa : SquadQA) :
    (qa.answers = [] →
        squadProcessQA tokenize clean true sent_starts context_sentences qa =
          Except.ok []) ∧
    ∀ a rest, qa.answers = a :: rest →
      resolveLoop a.answer_start (sent_starts.zip context_sentences) [] ≠ [] →
      squadProcessQA tokenize clean true sent_starts context_sentences qa =
        Except.ok [(resolveLoop a.answer_start (sent_starts.zip context_sentences) [],
          tokenize (clean qa.question), tokenize (clean a.text))] := by
  constructor
  · intro hnil
    rw [squadProcessQA, hnil]
    rfl
  · intro a rest hcons hres
    rw [squadProcessQA, hcons]
    have htake : (a :: rest).take 1 = [a] := by simp
    simp only [List.isEmpty_cons, if_true, htake, squadAnswerLoop, if_neg hres]
    rfl

/-- Witness for C5: a one-answer training question emits the triple from its
first answer; with the answers list emptied, nothing is emitted. -/
theorem squad_train_selects_first_answer_witness :
    (squadProcessQA (fun s => [s]) (fun s => s) true [0] [["hello"]]
        ⟨"q?", []⟩ = Except.ok []) ∧
    squadProcessQA (fun s => [s]) (fun s => s) true [0] [["hello"]]
        ⟨"q?", [⟨"ans", 0⟩]⟩ =
      Except.ok [(["hello"], ["q?"], ["ans"])] := by
  constructor
  · exact (squad_train_selects_first_answer (fun s => [s]) (fun s => s) [0]
      [["hello"]] ⟨"q?", []⟩).1 rfl
  · have h := (squad_train_selects_first_answer (fun s => [s]) (fun s => s) [0]
      [["hello"]] ⟨"q?", [⟨"ans", 0⟩]⟩).2 ⟨"ans", 0⟩ [] rfl (by decide)
    rw [h]
    rfl

/-! ### String helpers for the NewsQA extractor

Python strings are modelled as `List Char`.  `pyStrip` models
`str.strip(chars)` (remove any of the given characters from both ends),
`pyStripWs` models argumentless `str.strip()` (trim whitespace). -/

/-- `s.strip(chars)`: drop characters of `strip_set` from both ends. -/
def pyStrip (strip_set : List Char) (cs : List Char) : List Char :=
  ((cs.dropWhile (· ∈ strip_set)).reverse.dropWhile (· ∈ strip_set)).reverse

/-- `s.strip()`: trim whitespace from both ends. -/
def pyStripWs (cs : List Char) : List Char :=
  ((cs.dropWhile Char.isWhitespace).reverse.dropWhile Char.isWhitespace).reverse

/-- `hay.find(needle)` (line 185): index of the first occurrence of `needle`
in `hay`, `none` when absent (Python returns `-1`). -/
def strFind (needle : List Char) : List Char → Option Nat
  | [] => if needle = [] then some 0 else none
  | c :: rest =>
    if needle.isPrefixOf (c :: rest) then some 0
    else (strFind needle rest).map (· + 1)

/-- The literal `"( CNN ) -- "` searched for at line 185. -/
def cnn : List Char := "( CNN ) -- ".data

/-- Lines 185-187: `index = sent.find("( CNN ) -- "); if index > -1:
sent = sent[index + len("( CNN ) -- "):]`. -/
def cnnStrip (sent : List Char) : List Char :=
  match strFind cnn sent with
  | some i => sent.drop (i + cnn.length)
  | none => sent

/-- A found index is a real occurrence, and the first one. -/
theorem strFind_some (needle : List Char) :
    ∀ (hay : List Char) (i : Nat), strFind needle hay = some i →
      needle.isPrefixOf (hay.drop i) = true ∧
      ∀ j < i, needle.isPrefixOf (hay.drop j) = false := by
  intro hay
  induction hay with
  | nil =>
    intro i h
    rw [strFind] at h
    by_cases hn : needle = []
    · rw [if_pos hn] at h
      cases h
      simp [hn]
    · rw [if_neg hn] at h
      exact absurd h (by simp)
  | cons c rest ih =>
    intro i h
    rw [strFind] at h
    by_cases hp : needle.isPrefixOf (c :: rest) = true
    · rw [if_pos hp] at h
      cases h
      exact ⟨hp, by omega⟩
    · rw [if_neg hp] at h
      cases hf : strFind needle rest with
      | none => rw [hf] at h; exact absurd h (by simp)
      | some i' =>
        rw [hf, Option.map_some'] at h
        cases h
        obtain ⟨h1, h2⟩ := ih i' hf
        refine ⟨by simpa using h1, ?_⟩
        intro j hj
        cases j with
        | zero => simpa using Bool.eq_false_iff.mpr hp
        | succ j' => simpa using h2 j' (by omega)

/-- A Boolean prefix decomposes the list. -/
theorem isPrefixOf_append_drop :
    ∀ (needle hay : List Char), needle.isPrefixOf hay = true →
      hay = needle ++ hay.drop needle.length := by
  intro needle
  induction needle with
  | nil => intro hay _; simp
  | cons c n' ih =>
    intro hay h
    cases hay with
    | nil => simp [List.isPrefixOf] at h
    | cons d l' =>
      simp only [List.isPrefixOf, Bool.and_eq_true, beq_iff_eq] at h
      obtain ⟨rfl, h2⟩ := h
      simpa using ih l' h2

/-- C8: a NewsQA supporting sentence containing the literal substring
`"( CNN ) -- "` is written with everything up to and including the first
occurrence of that substring dropped; a sentence without it is written
unchanged.  The concrete conjunct is the spec scenario. -/
theorem cnn_boilerplate_stripping (sent : List Char) :
    (∀ i, strFind cnn sent = some i →
        cnnStrip sent = sent.drop (i + cnn.length) ∧
        sent = sent.take i ++ cnn ++ cnnStrip sent ∧
        ∀ j < i, cnn.isPrefixOf (sent.drop j) = false) ∧
    (strFind cnn sent = none → cnnStrip sent = sent) ∧
    cnnStrip "( CNN ) -- Officials said today...".data =
      "Officials said today...".data := by
  refine ⟨?_, ?_, by decide⟩
  · intro i h
    have hdrop : cnnStrip sent = sent.drop (i + cnn.length) := by
      rw [cnnStrip, h]
    obtain ⟨hpre, hfirst⟩ := strFind_some cnn sent i h
    refine ⟨hdrop, ?_, hfirst⟩
    have h1 : sent.drop i = cnn ++ (sent.drop i).drop cnn.length :=
      isPrefixOf_append_drop cnn (sent.drop i) hpre
    rw [List.drop_drop] at h1
    rw [hdrop, List.append_assoc]
    rw [Nat.add_comm i cnn.length] at h1 ⊢
    rw [← h1, List.take_append_drop]
  · intro h
    rw [cnnStrip, h]

/-- Witness for C8 at the spec scenario: the substring occurs at index 0 and
the written line is the suffix after it. -/
theorem cnn_boilerplate_stripping_witness :
    cnnStrip "( CNN ) -- Officials said today...".data =
      ("( CNN ) -- Officials said today...".data).drop (0 + cnn.length) ∧
    "( CNN ) -- Officials said today...".data =
      ("( CNN ) -- Officials said today...".data).take 0 ++ cnn ++
        cnnStrip "( CNN ) -- Officials said today...".data ∧
    ∀ j < 0, cnn.isPrefixOf (("( CNN ) -- Officials said today...".data).drop j) = false :=
  (cnn_boilerplate_stripping "( CNN ) -- Officials said today...".data).1 0 rfl

/-! ### NewsQA extractor (`NewsQAPreprocessor.split_data`, lines 152-192)

Per-article context processing (`word_tokenize`, `sent_tokenize`,
`convert_idx`, the `sent_starts` accumulation) is deterministic and
recomputed identically for every question of an article; its results are
carried in `NQContext`.  Python strings are `List Char`. -/

/-- The `consensus` object of a NewsQA question: the `s`/`e` character span
(`s` is `none` when the key is absent, e.g. `badQuestion`/`noAnswer`). -/
structure NQConsensus where
  s : Option Int
  e : Int
deriving DecidableEq

/-- One NewsQA question record.  `isQuestionBad` is the consensus fraction
(`none` when the key is absent), `q` the question text. -/
structure NQQuestion where
  isQuestionBad : Option ℚ
  consensus : NQConsensus
  q : List Char
deriving DecidableEq

/-- Precomputed per-article data: normalized article text, sentence token
groups from `sent_tokenize`, and the `sent_starts` boundary list. -/
structure NQContext where
  text : List Char
  context_sentences : List (List (List Char))
  sent_starts : List Int
deriving DecidableEq

/-- The exceptions the NewsQA question loop can raise: `NameError` when
`sentence_tokens` is referenced while still unbound (line 180, first
resolution failure of a run), the explicit `Exception()` of line 182, and
the `IndexError` of `q[-1]` on an empty trimmed question (line 170). -/
inductive NQErr
  | nameError
  | sentenceNotFound
  | indexError
deriving DecidableEq

/-- Python truthiness of `question["consensus"].get("s")`: the key must be
present and its integer value nonzero (so a span starting at offset 0 is
falsy). -/
def pyTruthy : Option Int → Bool
  | none => false
  | some v => v != 0

/-- Line 173: `context[s:e].strip(".| ").strip("\n")`. -/
def newsqaAnswerText (text : List Char) (s e : Int) : List Char :=
  pyStrip ['\n'] (pyStrip ['.', '|', ' '] ((text.drop s.toNat).take (e - s).toNat))

/-- Line 184: `" ".join([token.strip("\n").strip() for token in
sentence_tokens if token.strip("\n").strip()])`. -/
def joinTokens (sentence_tokens : List (List Char)) : List Char :=
  List.intercalate [' ']
    ((sentence_tokens.map fun token => pyStripWs (pyStrip ['\n'] token)).filter
      fun token => !token.isEmpty)

/-- One iteration of the `for question in article["questions"]` loop
(lines 155-192).  `sentence_tokens` is the loop-carried working variable
(never reset between questions; `none` = still unbound).  The result is the
new value of `sentence_tokens` together with the written
(sentence, question, answer) triple when one is emitted. -/
def newsqaStep (ctx : NQContext) (sentence_tokens : Option (List (List Char)))
    (question : NQQuestion) :
    Except NQErr
      (Option (List (List Char)) × Option (List Char × List Char × List Char)) :=
  if question.isQuestionBad = some 0 ∧ pyTruthy question.consensus.s = true then
    let q := pyStripWs question.q
    match q.getLast? with
    | none => Except.error NQErr.indexError
    | some c =>
      if c ≠ '?' then Except.ok (sentence_tokens, none)
      else
        let answer_start := question.consensus.s.getD 0
        let answer := newsqaAnswerText ctx.text answer_start question.consensus.e
        match resolveLoopOpt answer_start (ctx.sent_starts.zip ctx.context_sentences)
            sentence_tokens with
        | none => Except.error NQErr.nameError
        | some [] => Except.error NQErr.sentenceNotFound
        | some (t :: ts) =>
          Except.ok (some (t :: ts),
            some (cnnStrip (joinTokens (t :: ts)), q, answer))
  else Except.ok (sentence_tokens, none)

/-- The question loop over a whole split run: threads `sentence_tokens`
through the steps, collects written triples in order, aborts at the first
exception. -/
def newsqaRun (ctx : NQContext) :
    Option (List (List Char)) → List NQQuestion →
      Except NQErr (List (List Char × List Char × List Char))
  | _, [] => Except.ok []
  | st, question :: rest =>
    match newsqaStep ctx st question with
    | Except.error e => Except.error e
    | Except.ok (st', none) => newsqaRun ctx st' rest
    | Except.ok (st', some t) => (newsqaRun ctx st' rest).map (t :: ·)

/-- When every sentence start exceeds the answer start, the resolution loop
breaks immediately and leaves the accumulator untouched. -/
theorem resolveLoopOpt_all_lt (a : Int) (starts : List Int)
    (sents : List α) (acc : Option α) (h : ∀ s ∈ starts, a < s) :
    resolveLoopOpt a (starts.zip sents) acc = acc := by
  cases starts with
  | nil => rfl
  | cons s rest =>
    cases sents with
    | nil => rfl
    | cons v vs =>
      show (if a ≥ s then _ else acc) = acc
      rw [if_neg (not_le.mpr (h s (List.mem_cons_self s rest)))]

/-- Shared helper: behaviour of one NewsQA step on a gate-passing,
`?`-terminated question whose answer offset precedes every sentence start:
with `sentence_tokens` unbound the step raises; with a stale non-empty value
it silently emits a triple built from the stale sentence. -/
theorem newsqaStep_resolution_failure (ctx : NQContext) (question : NQQuestion)
    (hgate : question.isQuestionBad = some 0 ∧ pyTruthy question.consensus.s = true)
    (hq : (pyStripWs question.q).getLast? = some '?')
    (hfail : ∀ s ∈ ctx.sent_starts, question.consensus.s.getD 0 < s) :
    newsqaStep ctx none question = Except.error NQErr.nameError ∧
    ∀ t ts, newsqaStep ctx (some (t :: ts)) question =
      Except.ok (some (t :: ts),
        some (cnnStrip (joinTokens (t :: ts)), pyStripWs question.q,
          newsqaAnswerText ctx.text (question.consensus.s.getD 0)
            question.consensus.e)) := by
  constructor
  · unfold newsqaStep
    rw [if_pos hgate]
    simp only [hq]
    rw [if_neg (by simp)]
    rw [resolveLoopOpt_all_lt _ _ _ _ hfail]
  · intro t ts
    unfold newsqaStep
    rw [if_pos hgate]
    simp only [hq]
    rw [if_neg (by simp)]
    rw [resolveLoopOpt_all_lt _ _ _ _ hfail]

/-- C10: the NewsQA working variable `sentence_tokens` is not reset between
questions.  On a gate-passing question whose answer start precedes every
sentence start the step raises only when no earlier question has resolved a
sentence (the variable is still unbound); with a stale non-empty value it
silently emits a triple whose sentence is the previously resolved one; and a
skipped question leaves the variable untouched. -/
theorem newsqa_stale_sentence_reuse (ctx : NQContext) (question : NQQuestion)
    (hgate : question.isQuestionBad = some 0 ∧ pyTruthy question.consensus.s = true)
    (hq : (pyStripWs question.q).getLast? = some '?')
    (hfail : ∀ s ∈ ctx.sent_starts, question.consensus.s.getD 0 < s) :
    newsqaStep ctx none question = Except.error NQErr.nameError ∧
    (∀ t ts, newsqaStep ctx (some (t :: ts)) question =
        Except.ok (some (t :: ts),
          some (cnnStrip (joinTokens (t :: ts)), pyStripWs question.q,
            newsqaAnswerText ctx.text (question.consensus.s.getD 0)
              question.consensus.e))) ∧
    ∀ (st : Option (List (List Char))) (other : NQQuestion),
      ¬(other.isQuestionBad = some 0 ∧ pyTruthy other.consensus.s = true) →
      newsqaStep ctx st other = Except.ok (st, none) := by
  obtain ⟨h1, h2⟩ := newsqaStep_resolution_failure ctx question hgate hq hfail
  refine ⟨h1, h2, ?_⟩
  intro st other hno
  unfold newsqaStep
  rw [if_neg hno]

/-- Witness for C10: with `sentence_tokens` unbound the failing question
raises; with the stale sentence `["Prev"]` from an earlier question it emits
a triple carrying that stale sentence. -/
theorem newsqa_stale_sentence_reuse_witness :
    newsqaStep
        (⟨"Cats sleep. Dogs run.".data, [["Dogs".data, "run.".data]], [12]⟩ : NQContext)
        none (⟨some 0, ⟨some 2, 6⟩, "Why?".data⟩ : NQQuestion) =
      Except.error NQErr.nameError ∧
    newsqaStep
        (⟨"Cats sleep. Dogs run.".data, [["Dogs".data, "run.".data]], [12]⟩ : NQContext)
        (some ["Prev".data]) (⟨some 0, ⟨some 2, 6⟩, "Why?".data⟩ : NQQuestion) =
      Except.ok (some ["Prev".data],
        some (cnnStrip (joinTokens ["Prev".data]),
          pyStripWs (⟨some 0, ⟨some 2, 6⟩, "Why?".data⟩ : NQQuestion).q,
          newsqaAnswerText
            (⟨"Cats sleep. Dogs run.".data, [["Dogs".data, "run.".data]], [12]⟩ :
              NQContext).text
            ((⟨some 0, ⟨some 2, 6⟩, "Why?".data⟩ : NQQuestion).consensus.s.getD 0)
            (⟨some 0, ⟨some 2, 6⟩, "Why?".data⟩ : NQQuestion).consensus.e)) :=
  ⟨(newsqa_stale_sentence_reuse _ _ (by decide) (by decide) (by decide)).1,
    (newsqa_stale_sentence_reuse _ _ (by decide) (by decide) (by decide)).2.1
      "Prev".data []⟩

/-- C4 counterexample: a run containing a gate-passing question whose answer
start (2) precedes every sentence start ([5]) aborts with an exception at
that question (claim: only that question is dropped and the run continues). -/
theorem newsqa_notfound_aborts_run :
    newsqaRun (⟨"x".data, [["Dogs".data]], [5]⟩ : NQContext) none
        [⟨some 0, ⟨some 2, 3⟩, "Why?".data⟩, ⟨some 0, ⟨some 6, 8⟩, "Who?".data⟩] =
      Except.error NQErr.nameError ∧
    ∀ s ∈ ([5] : List Int), (2 : Int) < s :=
  ⟨rfl, by decide⟩

/-- C4 (amended): a NewsQA resolution failure is fatal, not skip-and-continue,
whenever no earlier question of the run has resolved a sentence: the run
aborts at the failing question with an exception. -/
theorem newsqa_notfound_fatal_when_unbound (ctx : NQContext)
    (question : NQQuestion) (rest : List NQQuestion)
    (hgate : question.isQuestionBad = some 0 ∧ pyTruthy question.consensus.s = true)
    (hq : (pyStripWs question.q).getLast? = some '?')
    (hfail : ∀ s ∈ ctx.sent_starts, question.consensus.s.getD 0 < s) :
    newsqaRun ctx none (question :: rest) = Except.error NQErr.nameError := by
  have h := (newsqaStep_resolution_failure ctx question hgate hq hfail).1
  simp only [newsqaRun, h]

/-- Witness for the amended C4: a concrete one-question run aborts. -/
theorem newsqa_notfound_fatal_when_unbound_witness :
    newsqaRun (⟨"y".data, [["Cats".data]], [7]⟩ : NQContext) none
        [⟨some 0, ⟨some 3, 4⟩, "How?".data⟩] = Except.error NQErr.nameError :=
  newsqa_notfound_fatal_when_unbound _ _ [] (by decide) (by decide) (by decide)

/-- C6 counterexample: a question with `isQuestionBad = 0`, a consensus span
present but starting at character offset 0, and text ending in `?`, is
nevertheless silently skipped: line 156 tests `consensus.get("s")` for
truthiness and `0` is falsy. -/
theorem newsqa_zero_offset_span_skipped :
    ((⟨some 0, ⟨some 0, 5⟩, "Who is first?".data⟩ : NQQuestion).isQuestionBad =
      some 0) ∧
    ((⟨some 0, ⟨some 0, 5⟩, "Who is first?".data⟩ : NQQuestion).consensus.s =
      some 0) ∧
    (pyStripWs (⟨some 0, ⟨some 0, 5⟩, "Who is first?".data⟩ : NQQuestion).q).getLast? =
      some '?' ∧
    newsqaStep
        (⟨"Who is first? Yes.".data, [["Who".data, "is".data, "first?".data]], [0]⟩ :
          NQContext)
        none (⟨some 0, ⟨some 0, 5⟩, "Who is first?".data⟩ : NQQuestion) =
      Except.ok (none, none) :=
  ⟨rfl, rfl, by decide, rfl⟩

/-- C6 (amended): a NewsQA question is silently skipped (no lines emitted, no
exception, state untouched) exactly when the line-156 gate fails —
`isQuestionBad` absent or nonzero, or the consensus start offset absent or
zero (Python truthiness) — or, with the gate passing, the trimmed question
text ends in a character other than `?` (an empty trimmed text raises
instead).  The concrete conjunct is the spec scenario: "is this a question"
is skipped. -/
theorem newsqa_skip_characterization :
    (∀ (ctx : NQContext) (st : Option (List (List Char))) (question : NQQuestion),
        newsqaStep ctx st question = Except.ok (st, none) ↔
          (¬(question.isQuestionBad = some 0 ∧
              pyTruthy question.consensus.s = true) ∨
            ∃ c, (pyStripWs question.q).getLast? = some c ∧ c ≠ '?')) ∧
    newsqaStep (⟨[], [], []⟩ : NQContext) none
        (⟨some 0, ⟨some 3, 6⟩, "is this a question".data⟩ : NQQuestion) =
      Except.ok (none, none) := by
  refine ⟨?_, rfl⟩
  intro ctx st question
  by_cases hgate : question.isQuestionBad = some 0 ∧
      pyTruthy question.consensus.s = true
  · cases hlast : (pyStripWs question.q).getLast? with
    | none =>
      unfold newsqaStep
      rw [if_pos hgate]
      simp only [hlast]
      constructor
      · intro h; exact absurd h (by simp)
      · rintro (h | ⟨c, hc, _⟩)
        · exact absurd hgate h
        · exact absurd hc (by simp)
    | some c =>
      unfold newsqaStep
      rw [if_pos hgate]
      simp only [hlast]
      by_cases hc : c = '?'
      · subst hc
        rw [if_neg (by simp)]
        have hR : ¬(¬(question.isQuestionBad = some 0 ∧
            pyTruthy question.consensus.s = true) ∨
            ∃ c', (some '?' : Option Char) = some c' ∧ c' ≠ '?') := by
          rintro (h | ⟨c', hc', hne'⟩)
          · exact absurd hgate h
          · cases hc'
            exact absurd rfl hne'
        cases hres : resolveLoopOpt (question.consensus.s.getD 0)
            (ctx.sent_starts.zip ctx.context_sentences) st with
        | none =>
          exact ⟨fun h => absurd h (by simp), fun h => absurd h hR⟩
        | some l =>
          cases l with
          | nil => exact ⟨fun h => absurd h (by simp), fun h => absurd h hR⟩
          | cons t ts =>
            constructor
            · intro h
              simp only [Except.ok.injEq, Prod.mk.injEq] at h
              exact absurd h.2 (by simp)
            · intro h; exact absurd h hR
      · rw [if_pos hc]
        exact ⟨fun _ => Or.inr ⟨c, rfl, hc⟩, fun _ => rfl⟩
  · unfold newsqaStep
    rw [if_neg hgate]
    exact ⟨fun _ => Or.inl hgate, fun _ => rfl⟩

/-- Witness for the skip characterisation: a question whose `isQuestionBad`
key is absent is silently skipped. -/
theorem newsqa_skip_characterization_witness :
    newsqaStep (⟨[], [], []⟩ : NQContext) none
        (⟨none, ⟨some 4, 7⟩, "Where?".data⟩ : NQQuestion) =
      Except.ok (none, none) :=
  (newsqa_skip_characterization.1 ⟨[], [], []⟩ none
      ⟨none, ⟨some 4, 7⟩, "Where?".data⟩).mpr (Or.inl (by simp))

/-! ### Corpus merger (`concatenate_data`, lines 198-209, and the merge stage
of `__main__`, lines 226-240) -/

/-- `concatenate_data(filenames, out_filename)` (lines 198-209): write the
input files' lines into the output file in order, then read them back,
pair each line with a freshly drawn `random.random()` key, sort the pairs,
and rewrite the file in key order.  The freshly drawn keys are passed in as
`keys`, one per line in file order; Python sorts the `(float, str)` tuples
lexicographically, which for pairwise-distinct keys (almost surely the case
for `random.random()`) coincides with sorting by key alone. -/
def concatenate_data (keys : List ℚ) (filenames : List (List String)) : List String :=
  let lines := keys.zip filenames.join
  (List.insertionSort (fun a b : ℚ × String => a.1 ≤ b.1) lines).map Prod.snd

/-- The three aligned per-split output files of one corpus. -/
structure CorpusSplit where
  sentence : List String
  question : List String
  answer : List String
deriving DecidableEq

/-- The merge stage of `__main__` (lines 226-240): exactly four
`concatenate_data` calls — train/dev × sentence/question — each drawing its
own fresh random keys (`k1`..`k4`).  The result lists the files written under
`config.out_dir` with their merged contents. -/
def mainMerge (squad_train newsqa_train squad_dev newsqa_dev : CorpusSplit)
    (k1 k2 k3 k4 : List ℚ) : List (String × List String) :=
  [("train/train.sentence",
      concatenate_data k1 [squad_train.sentence, newsqa_train.sentence]),
   ("train/train.question",
      concatenate_data k2 [squad_train.question, newsqa_train.question]),
   ("dev/dev.sentence",
      concatenate_data k3 [squad_dev.sentence, newsqa_dev.sentence]),
   ("dev/dev.question",
      concatenate_data k4 [squad_dev.question, newsqa_dev.question])]

/-- C1: with the independent per-file key draws the code performs, the merged
sentence and question files receive different permutations: on a two-line
corpus, sentence keys `[2, 1]` and question keys `[1, 2]` leave line 0
pairing `"s2"` with `"q1"` — a (sentence, question) pair that appeared at no
common index before shuffling.  (The `.answer` files are never merged at all;
see `merge_stage_omits_answer_files`.) -/
theorem merge_shuffle_misaligns :
    concatenate_data [2, 1] [["s1"], ["s2"]] = ["s2", "s1"] ∧
    concatenate_data [1, 2] [["q1"], ["q2"]] = ["q1", "q2"] ∧
    ((concatenate_data [2, 1] [["s1"], ["s2"]]).zip
        (concatenate_data [1, 2] [["q1"], ["q2"]]) = [("s2", "q1"), ("s1", "q2")]) ∧
    ("s2", "q1") ∉ (["s1", "s2"].zip ["q1", "q2"]) := by
  decide

/-- C9: the merge stage writes only the `.sentence` and `.question` merged
files for each split; no `.answer` file is ever produced. -/
theorem merge_stage_omits_answer_files (squad_train newsqa_train squad_dev
    newsqa_dev : CorpusSplit) (k1 k2 k3 k4 : List ℚ) :
    (mainMerge squad_train newsqa_train squad_dev newsqa_dev k1 k2 k3 k4).map
        Prod.fst =
      ["train/train.sentence", "train/train.question", "dev/dev.sentence",
        "dev/dev.question"] ∧
    "train/train.answer" ∉
      (mainMerge squad_train newsqa_train squad_dev newsqa_dev k1 k2 k3 k4).map
        Prod.fst ∧
    "dev/dev.answer" ∉
      (mainMerge squad_train newsqa_train squad_dev newsqa_dev k1 k2 k3 k4).map
        Prod.fst := by
  refine ⟨rfl, ?_, ?_⟩
  · show "train/train.answer" ∉ ["train/train.sentence", "train/train.question",
      "dev/dev.sentence", "dev/dev.question"]
    decide
  · show "dev/dev.answer" ∉ ["train/train.sentence", "train/train.question",
      "dev/dev.sentence", "dev/dev.question"]
    decide

/-! ### Sentence boundaries (`sent_starts`, lines 83-88 and 162-167) -/

/-- Cursor-scan worker for the Span Indexer. -/
def convert_idx_from (text : List Char) : List (List Char) → Nat → Option (List (Int × Int))
  | [], _ => some []
  | token :: rest, cursor =>
    match strFind token (text.drop cursor) with
    | none => none
    | some off =>
      (convert_idx_from text rest (cursor + off + token.length)).map
        ((((cursor + off : Nat) : Int), ((cursor + off + token.length : Nat) : Int)) :: ·)

/-- Modelled from the spec: `convert_idx` (the Span Indexer, §4.2) lives in
the `utils` module, which is not part of this repository snapshot.  Maintain
a scan cursor into `text`; for each token in order, find the token's text
from the cursor onward, record `(start, start + len(token))`, and advance
the cursor to the span end; fail when a token cannot be located. -/
def convert_idx (text : List Char) (tokens : List (List Char)) :
    Option (List (Int × Int)) :=
  convert_idx_from text tokens 0

/-- Lines 83-88 (and identically 162-167): `num_tokens = 0; sent_starts = []`;
for each sentence, read `spans[num_tokens][0]`, add the sentence's token
count to `num_tokens`, and append the span start.  `spans[num_tokens]` out of
range is Python's `IndexError`, modelled as `none`. -/
def sentStartsAux (spans : List (Int × Int)) :
    List (List α) → Nat → Option (List Int)
  | [], _ => some []
  | sentence :: rest, num_tokens =>
    match spans.get? num_tokens with
    | none => none
    | some first_sentence_span =>
      (sentStartsAux spans rest (num_tokens + sentence.length)).map
        (first_sentence_span.1 :: ·)

/-- The `sent_starts` list computed for a passage. -/
def sentStarts (spans : List (Int × Int)) (context_sentences : List (List α)) :
    Option (List Int) :=
  sentStartsAux spans context_sentences 0

/-- Ordered, non-overlapping spans of non-empty tokens have strictly
increasing start offsets. -/
theorem spans_fst_strict_mono (spans : List (Int × Int))
    (hord : List.Chain' (fun p q : Int × Int => p.2 ≤ q.1) spans)
    (hpos : ∀ p ∈ spans, p.1 < p.2) :
    List.Chain' (· < ·) (spans.map Prod.fst) := by
  induction spans with
  | nil => simp
  | cons p rest ih =>
    rw [List.map_cons, List.chain'_cons']
    rw [List.chain'_cons'] at hord
    refine ⟨?_, ih hord.2 fun q hq => hpos q (List.mem_cons_of_mem p hq)⟩
    intro y hy
    rw [List.head?_map] at hy
    cases hhead : rest.head? with
    | none => rw [hhead] at hy; exact absurd hy (by simp)
    | some q =>
      rw [hhead] at hy
      simp only [Option.map_some', Option.mem_def, Option.some.injEq] at hy
      subst hy
      have h1 : p.2 ≤ q.1 := hord.1 q (by rw [hhead]; rfl)
      exact lt_of_lt_of_le (hpos p (List.mem_cons_self p rest)) h1

/-- Start offsets at increasing span indices increase. -/
theorem spans_fst_lt (spans : List (Int × Int))
    (hord : List.Chain' (fun p q : Int × Int => p.2 ≤ q.1) spans)
    (hpos : ∀ p ∈ spans, p.1 < p.2) (i j : Nat) (hi : i < spans.length)
    (hj : j < spans.length) (hij : i < j) :
    (spans.get ⟨i, hi⟩).1 < (spans.get ⟨j, hj⟩).1 := by
  have hchain := spans_fst_strict_mono spans hord hpos
  have hpair : List.Pairwise (· < ·) (spans.map Prod.fst) :=
    (List.chain'_iff_pairwise).mp hchain
  have := List.pairwise_iff_get.mp hpair
    ⟨i, by simpa using hi⟩ ⟨j, by simpa using hj⟩ hij
  simpa using this

/-- Main induction for `sentStartsAux`: with in-range accesses, the
accumulated starts exist, one per sentence, strictly increasing, headed by
the span start at the entry token index. -/
theorem sentStartsAux_ok (spans : List (Int × Int))
    (hord : List.Chain' (fun p q : Int × Int => p.2 ≤ q.1) spans)
    (hpos : ∀ p ∈ spans, p.1 < p.2) :
    ∀ (sents : List (List α)) (n : Nat), (∀ s ∈ sents, s ≠ []) →
      n + (sents.map List.length).sum ≤ spans.length →
      ∃ starts, sentStartsAux spans sents n = some starts ∧
        starts.length = sents.length ∧
        List.Chain' (· < ·) starts ∧
        (sents ≠ [] → ∃ hn : n < spans.length,
          starts.head? = some (spans.get ⟨n, hn⟩).1) := by
  intro sents
  induction sents with
  | nil =>
    intro n _ _
    exact ⟨[], rfl, rfl, List.chain'_nil, fun h => absurd rfl h⟩
  | cons s rest ih =>
    intro n hne hbound
    have hslen : 1 ≤ s.length :=
      List.length_pos.mpr (hne s (List.mem_cons_self s rest))
    have hsum : (List.map List.length (s :: rest)).sum =
        s.length + (List.map List.length rest).sum := by simp
    have hn : n < spans.length := by rw [hsum] at hbound; omega
    obtain ⟨starts', h1, h2, h3, h4⟩ :=
      ih (n + s.length) (fun t ht => hne t (List.mem_cons_of_mem s ht))
        (by rw [hsum] at hbound; omega)
    refine ⟨(spans.get ⟨n, hn⟩).1 :: starts', ?_, by simp [h2], ?_, ?_⟩
    · show (match spans.get? n with
        | none => none
        | some first_sentence_span =>
          (sentStartsAux spans rest (n + s.length)).map
            (first_sentence_span.1 :: ·)) = _
      rw [List.get?_eq_get hn, h1]
      rfl
    · rw [List.chain'_cons']
      refine ⟨?_, h3⟩
      intro y hy
      cases hrest : rest with
      | nil =>
        subst hrest
        have : starts' = [] := List.length_eq_zero.mp (by simp [h2])
        rw [this] at hy
        exact absurd hy (by simp)
      | cons r rs =>
        obtain ⟨hn', hhead⟩ := h4 (by simp [hrest])
        rw [hhead] at hy
        simp only [Option.mem_def, Option.some.injEq] at hy
        subst hy
        exact spans_fst_lt spans hord hpos n (n + s.length) hn hn' (by omega)
    · intro _
      exact ⟨hn, rfl⟩

/-- C7 (amended): for a non-empty passage whose spans are ordered,
non-overlapping and per-token non-empty, and whose sentence token groups are
non-empty and partition the token sequence, `sent_starts` is computed without
an index error, has one entry per sentence, is strictly increasing, and its
first entry is the start offset of the passage's first token (which is 0
exactly when the passage text begins with its first token). -/
theorem sent_starts_strictly_increasing (spans : List (Int × Int))
    (sents : List (List α))
    (hord : List.Chain' (fun p q : Int × Int => p.2 ≤ q.1) spans)
    (hpos : ∀ p ∈ spans, p.1 < p.2)
    (hne : ∀ s ∈ sents, s ≠ [])
    (hpart : (sents.map List.length).sum = spans.length)
    (hsne : sents ≠ []) :
    ∃ starts, sentStarts spans sents = some starts ∧
      starts.length = sents.length ∧
      List.Chain' (· < ·) starts ∧
      starts.head? = spans.head?.map Prod.fst := by
  obtain ⟨starts, h1, h2, h3, h4⟩ :=
    sentStartsAux_ok spans hord hpos sents 0 hne (by omega)
  obtain ⟨h0, hhead⟩ := h4 hsne
  refine ⟨starts, h1, h2, h3, ?_⟩
  cases spans with
  | nil => simp at h0
  | cons p ps => rw [hhead]; rfl

/-- Witness for the amended C7 at the spec scenario passage
`"Cats sleep. Dogs run."`: spans `[(0,4),(5,10),(10,11),(12,16),(17,20),
(20,21)]` with two three-token sentences give `sent_starts = [0, 12]`. -/
theorem sent_starts_strictly_increasing_witness :
    ∃ starts,
      sentStarts [((0 : Int), 4), (5, 10), (10, 11), (12, 16), (17, 20), (20, 21)]
          ([["Cats", "sleep", "."], ["Dogs", "run", "."]] : List (List String)) =
        some starts ∧
      starts.length = 2 ∧
      List.Chain' (· < ·) starts ∧
      starts.head? =
        ([((0 : Int), 4), (5, 10), (10, 11), (12, 16), (17, 20),
            (20, 21)] : List (Int × Int)).head?.map Prod.fst :=
  sent_starts_strictly_increasing _ _ (by simp [List.chain'_cons]) (by decide)
    (by decide) (by decide) (by decide)

/-- C7 counterexample to "SentenceBoundary[0] = 0": the passage `" a"` (one
leading whitespace, one token `"a"`) yields the single span `(1, 2)`, which
satisfies the TokenSpan invariant, with a non-empty sentence group
partitioning the tokens — yet the first sentence start is 1, not 0. -/
theorem first_sent_start_nonzero :
    convert_idx " a".data ["a".data] = some [(1, 2)] ∧
    sentStarts [((1 : Int), 2)] ([["a"]] : List (List String)) = some [1] ∧
    List.Chain' (fun p q : Int × Int => p.2 ≤ q.1) [((1 : Int), 2)] ∧
    (∀ p ∈ ([((1 : Int), 2)] : List (Int × Int)), p.1 < p.2) ∧
    (∀ s ∈ ([["a"]] : List (List String)), s ≠ []) ∧
    (([["a"]] : List (List String)).map List.length).sum =
      ([((1 : Int), 2)] : List (Int × Int)).length ∧
    ([(1 : Int)] : List Int).head? ≠ some 0 := by
  refine ⟨rfl, rfl, by simp, by decide, by decide, by decide, by decide⟩

end MakeDataset
